import Mathlib

/-!
Verification of the source-rewriting utility `fix_memory_leaks.py`.

The script is a line-oriented text rewriter: it splits a file's content on
newline characters, passes comment lines through unchanged, and applies three
regex substitutions (for addEventListener, setTimeout, setInterval) to the
remaining lines.  We embed the script shallowly: Python strings become
`List Char`, each Python function becomes a Lean function of the same name,
and the two concrete regular expressions are compiled by hand into
backtracking matchers with exactly the semantics of the Python `re` module on
these patterns (leftmost match, greedy quantifiers with backtracking,
word-boundary via the preceding character).  `\w` and `\s` and `str.strip`
are modelled over the ASCII range, which covers every character class test
the script's patterns can perform on its own replacement texts.
-/

namespace FixMemoryLeaks

/-- Python `\s` / `str.strip` whitespace, ASCII range. -/
def pySpace (c : Char) : Bool :=
  c = ' ' || c = '\t' || c = '\n' || c = '\r' || c = '\x0b' || c = '\x0c'

/-- Python `\w` word character, ASCII range. -/
def wordChar (c : Char) : Bool :=
  ('a' ≤ c && c ≤ 'z') || ('A' ≤ c && c ≤ 'Z') || ('0' ≤ c && c ≤ '9') || c = '_'

/-- Python `line.strip()`. -/
def pyStrip (l : List Char) : List Char :=
  ((l.dropWhile pySpace).reverse.dropWhile pySpace).reverse

/-- The comment test used by all three rewriters:
`line.strip().startswith('//') or line.strip().startswith('*')`. -/
def isCommentLine (l : List Char) : Bool :=
  ("//".toList).isPrefixOf (pyStrip l) || ("*".toList).isPrefixOf (pyStrip l)

/-- Python's substring containment `needle in hay`. -/
def containsSub (needle : List Char) : List Char → Bool
  | [] => needle.isPrefixOf []
  | c :: rest => needle.isPrefixOf (c :: rest) || containsSub needle rest

/-- Python `content.split('\n')`. -/
def splitNl : List Char → List (List Char)
  | [] => [[]]
  | c :: cs =>
    if c = '\n' then [] :: splitNl cs
    else
      match splitNl cs with
      | [] => [[c]]
      | l :: ls => (c :: l) :: ls

/-- Python `'\n'.join(lines)`. -/
def joinNl : List (List Char) → List Char
  | [] => []
  | [l] => l
  | l :: l2 :: ls => l ++ '\n' :: joinNl (l2 :: ls)

/-- First `some` produced by `f` along the list, in order: the backtracking
combinator (alternatives are tried left to right). -/
def firstSome {α β : Type} : List α → (α → Option β) → Option β
  | [], _ => none
  | x :: xs, f =>
    match f x with
    | some b => some b
    | none => firstSome xs f

/-- `[n, n-1, ..., 0]`: candidate lengths of a greedy `*` quantifier,
longest first. -/
def descRange (n : Nat) : List Nat := (List.range (n + 1)).reverse

/-- `[n, n-1, ..., 1]`: candidate lengths of a greedy `+` quantifier,
longest first. -/
def descFrom1 (n : Nat) : List Nat := ((List.range n).map (fun i => i + 1)).reverse

/-! ### The addEventListener pattern

`(\w+)\.addEventListener\(([^,]+),\s*([^,]+)(?:,\s*([^)]+))?\)` -/

/-- The literal mid-section of the pattern. -/
def lit1 : List Char := ".addEventListener(".toList

/-- Matcher for the final `([^)]+)\)` of the optional group: greedy `[^)]+`
(longest candidate first) followed by the closing `\)`.  Returns the capture
and the remaining input. -/
def tryG4 (w : List Char) : Option (List Char × List Char) :=
  firstSome (descFrom1 (w.takeWhile (fun c => !(c = ')'))).length) fun n =>
    match w.drop n with
    | ')' :: rest => some (w.take n, rest)
    | _ => none

/-- Matcher for a present optional group `,\s*([^)]+)` followed by `\)`:
comma, then greedy `\s*`, then `tryG4` which also consumes the `\)`. -/
def tryOptStrict : List Char → Option (Option (List Char) × List Char)
  | ',' :: v1 =>
    firstSome (descRange (v1.takeWhile pySpace).length) fun j =>
      match tryG4 (v1.drop j) with
      | some (g4, rest) => some (some g4, rest)
      | none => none
  | _ => none

/-- Matcher for `(?:,\s*([^)]+))?\)`: first try the optional group greedily;
if every alternative fails, drop the optional group and match `\)` directly. -/
def tryOptTail (v : List Char) : Option (Option (List Char) × List Char) :=
  match tryOptStrict v with
  | some r => some r
  | none =>
    match v with
    | ')' :: rest => some (none, rest)
    | _ => none

/-- Matcher for `\s*([^,]+)(?:,\s*([^)]+))?\)`, the part after the comma that
follows capture group 2: greedy `\s*`, then greedy `[^,]+` for group 3, then
`tryOptTail`.  Returns group 3, optional group 4 and the remaining input. -/
def tryTail (r4 : List Char) : Option (List Char × Option (List Char) × List Char) :=
  firstSome (descRange (r4.takeWhile pySpace).length) fun k =>
    firstSome (descFrom1 ((r4.drop k).takeWhile (fun c => !(c = ','))).length) fun m =>
      match tryOptTail ((r4.drop k).drop m) with
      | some (g4, rest) => some ((r4.drop k).take m, g4, rest)
      | none => none

/-- Try to match the whole addEventListener pattern at the head of `s`.
`(\w+)` followed by a literal can only take the maximal word run, and
`([^,]+)` followed by `,` can only take the maximal non-comma run, so these
two need no backtracking.  Returns the four captures and the rest of `s`. -/
def evtMatch (s : List Char) :
    Option (List Char × List Char × List Char × Option (List Char) × List Char) :=
  let g1 := s.takeWhile wordChar
  if g1 = [] then none
  else
    let r1 := s.dropWhile wordChar
    if lit1.isPrefixOf r1 then
      let r2 := r1.drop lit1.length
      let g2 := r2.takeWhile (fun c => !(c = ','))
      if g2 = [] then none
      else
        match r2.dropWhile (fun c => !(c = ',')) with
        | ',' :: r4 =>
          match tryTail r4 with
          | some (g3, g4, rest) => some (g1, g2, g3, g4, rest)
          | none => none
        | _ => none
    else none

/-- The `replacer` of `fix_event_listeners`, with `options = group(4)` when
present (a matched group 4 is never empty, so Python's falsiness test on it
coincides with presence). -/
def evtRepl (g1 g2 g3 : List Char) (g4 : Option (List Char)) : List Char :=
  match g4 with
  | some o =>
    "(window.eventListenerManager ? window.eventListenerManager.add(".toList
      ++ g1 ++ ", ".toList ++ g2 ++ ", ".toList ++ g3 ++ ", ".toList ++ o
      ++ ") : ".toList
      ++ g1 ++ ".addEventListener(".toList ++ g2 ++ ", ".toList ++ g3
      ++ ", ".toList ++ o ++ "))".toList
  | none =>
    "(window.eventListenerManager ? window.eventListenerManager.add(".toList
      ++ g1 ++ ", ".toList ++ g2 ++ ", ".toList ++ g3 ++ ") : ".toList
      ++ g1 ++ ".addEventListener(".toList ++ g2 ++ ", ".toList ++ g3
      ++ "))".toList

/-- `re.sub` scan for the addEventListener pattern: at each position try the
matcher; on success emit the replacement and resume after the matched text,
otherwise copy one character.  Every successful match consumes at least one
character, so fuel `s.length` is never exhausted. -/
def subEvtAux : Nat → List Char → List Char
  | 0, s => s
  | _ + 1, [] => []
  | fuel + 1, c :: cs =>
    match evtMatch (c :: cs) with
    | some (g1, g2, g3, g4, rest) => evtRepl g1 g2 g3 g4 ++ subEvtAux fuel rest
    | none => c :: subEvtAux fuel cs

/-- `re.sub(pattern, replacer, line)` for the addEventListener pattern. -/
def subEvt (s : List Char) : List Char := subEvtAux s.length s

/-- The per-line body of `fix_event_listeners`. -/
def fixEvtLine (l : List Char) : List Char :=
  if isCommentLine l then l else subEvt l

/-- `fix_event_listeners(content, filename)`. -/
def fix_event_listeners (content filename : List Char) : List Char :=
  joinNl ((splitNl content).map fixEvtLine)

/-! ### The timer patterns `\bsetTimeout\(` and `\bsetInterval\(` -/

/-- `\b` before a word character holds iff the previous character (none at
the start of the string) is not a word character. -/
def prevNonWord : Option Char → Bool
  | none => true
  | some c => !wordChar c

/-- `re.sub` scan for `\b<lit>` with replacement `repl`, carrying the
character preceding the current position of the original string (matching
continues after the matched text, so the carried character becomes the last
character of `lit`). -/
def subCallAux (lit repl : List Char) : Nat → Option Char → List Char → List Char
  | 0, _, s => s
  | _ + 1, _, [] => []
  | fuel + 1, prev, c :: cs =>
    if prevNonWord prev && lit.isPrefixOf (c :: cs) then
      repl ++ subCallAux lit repl fuel (some (lit.getLastD c)) ((c :: cs).drop lit.length)
    else
      c :: subCallAux lit repl fuel (some c) cs

/-- `re.sub(r'\b' + lit, repl, s)` for a literal pattern. -/
def subCall (lit repl s : List Char) : List Char := subCallAux lit repl s.length none s

def timeoutLit : List Char := "setTimeout(".toList

def timeoutRepl : List Char :=
  "(window.timerManager ? window.timerManager.setTimeout : setTimeout)(".toList

def intervalLit : List Char := "setInterval(".toList

def intervalRepl : List Char :=
  "(window.timerManager ? window.timerManager.setInterval : setInterval)(".toList

/-- The per-line body of `fix_timeouts`: skip comments, skip lines already
mentioning `timerManager.setTimeout` or `window.setTimeout`, else substitute. -/
def fixTimeoutLine (l : List Char) : List Char :=
  if isCommentLine l then l
  else if containsSub ("timerManager.setTimeout".toList) l
       || containsSub ("window.setTimeout".toList) l then l
  else subCall timeoutLit timeoutRepl l

/-- `fix_timeouts(content, filename)`. -/
def fix_timeouts (content filename : List Char) : List Char :=
  joinNl ((splitNl content).map fixTimeoutLine)

/-- The per-line body of `fix_intervals`. -/
def fixIntervalLine (l : List Char) : List Char :=
  if isCommentLine l then l
  else if containsSub ("timerManager.setInterval".toList) l
       || containsSub ("window.setInterval".toList) l then l
  else subCall intervalLit intervalRepl l

/-- `fix_intervals(content, filename)`. -/
def fix_intervals (content filename : List Char) : List Char :=
  joinNl ((splitNl content).map fixIntervalLine)

/-! ### File processing and the driver -/

/-- Filesystem side effects performed by `process_file`, in order. -/
inductive FileEvent
  | read : FileEvent
  | write : List Char → FileEvent
deriving DecidableEq

/-- The exclusion set. -/
def EXCLUDE_FILES : List (List Char) :=
  ["EventListenerManager.js".toList, "TimerManager.js".toList]

/-- The three rewriters in the fixed order of `process_file`. -/
def applyFixes (content filename : List Char) : List Char :=
  fix_intervals (fix_timeouts (fix_event_listeners content filename) filename) filename

/-- `process_file(filepath)`, as a function of the file's basename and the
content on disk.  Returns the boolean result, the content on disk afterward,
and the filesystem events performed. -/
def process_file (filename diskContent : List Char) : Bool × List Char × List FileEvent :=
  if filename ∈ EXCLUDE_FILES then
    (false, diskContent, [])
  else
    let content := applyFixes diskContent filename
    if content ≠ diskContent then
      (true, content, [FileEvent.read, FileEvent.write content])
    else
      (false, diskContent, [FileEvent.read])

/-- The counting loop of `main` over the enumerated `(basename, content)`
files: `(total_count, fixed_count)`.  The printed "Files skipped" is
`total_count - fixed_count`. -/
def mainCounts : List (List Char × List Char) → Nat × Nat
  | [] => (0, 0)
  | fd :: rest =>
    let acc := mainCounts rest
    (acc.1 + 1, if (process_file fd.1 fd.2).1 then acc.2 + 1 else acc.2)

/-! ### Basic lemmas about prefixes, containment, splitting and joining -/

theorem isPrefixOf_append_right (n s t : List Char) (h : n.isPrefixOf s = true) :
    n.isPrefixOf (s ++ t) = true := by
  simp only [ List.isPrefixOf_iff_prefix] at h ⊢
  exact h.trans (List.prefix_append s t)

theorem containsSub_nil (t : List Char) : containsSub [] t = true := by
  cases t with
  | nil => rfl
  | cons c cs => simp [containsSub, List.isPrefixOf]

theorem containsSub_cons {n t : List Char} (c : Char) (h : containsSub n t = true) :
    containsSub n (c :: t) = true := by
  simp [containsSub, h]

theorem containsSub_append_left {n s : List Char} (t : List Char)
    (h : containsSub n s = true) : containsSub n (s ++ t) = true := by
  induction s with
  | nil =>
    cases n with
    | nil => exact containsSub_nil t
    | cons a as => simp [containsSub, List.isPrefixOf] at h
  | cons c cs ih =>
    simp only [containsSub, Bool.or_eq_true] at h
    rcases h with h | h
    · have := isPrefixOf_append_right n (c :: cs) t h
      simp only [List.cons_append] at this ⊢
      simp [containsSub, this]
    · simp only [List.cons_append, containsSub, Bool.or_eq_true]
      exact Or.inr (ih h)

theorem splitNl_ne_nil (s : List Char) : splitNl s ≠ [] := by
  cases s with
  | nil => simp [splitNl]
  | cons c cs =>
    by_cases hc : c = '\n'
    · simp [splitNl, hc]
    · cases hcs : splitNl cs <;> simp [splitNl, hc, hcs]

theorem mem_splitNl_no_nl {s l : List Char} (h : l ∈ splitNl s) : '\n' ∉ l := by
  induction s generalizing l with
  | nil =>
    simp [splitNl] at h
    simp [h]
  | cons c cs ih =>
    by_cases hc : c = '\n'
    · subst hc
      simp [splitNl] at h
      rcases h with h | h
      · simp [h]
      · exact ih h
    · cases hcs : splitNl cs with
      | nil => exact absurd hcs (splitNl_ne_nil cs)
      | cons l0 ls =>
        simp [splitNl, hc, hcs] at h
        rcases h with h | h
        · subst h
          intro hmem
          rcases List.mem_cons.mp hmem with h1 | h1
          · exact hc h1.symm
          · exact ih (l := l0) (by rw [hcs]; exact List.mem_cons_self l0 ls) h1
        · exact ih (by rw [hcs]; exact List.mem_cons_of_mem l0 h)

theorem splitNl_of_no_nl {l : List Char} (h : '\n' ∉ l) : splitNl l = [l] := by
  induction l with
  | nil => rfl
  | cons c cs ih =>
    have hc : ¬ c = '\n' := fun e => h (by simp [e])
    have hcs : splitNl cs = [cs] := ih (fun m => h (List.mem_cons_of_mem c m))
    simp [splitNl, hc, hcs]

theorem splitNl_append_nl {l : List Char} (t : List Char) (h : '\n' ∉ l) :
    splitNl (l ++ '\n' :: t) = l :: splitNl t := by
  induction l with
  | nil => simp [splitNl]
  | cons c cs ih =>
    have hc : ¬ c = '\n' := fun e => h (by simp [e])
    have ih' := ih (fun m => h (List.mem_cons_of_mem c m))
    simp [splitNl, hc, ih']

theorem splitNl_joinNl : ∀ (ls : List (List Char)), ls ≠ [] →
    (∀ l ∈ ls, '\n' ∉ l) → splitNl (joinNl ls) = ls
  | [], h, _ => absurd rfl h
  | [l], _, hnl => by
    simp only [joinNl]
    simp [splitNl_of_no_nl (hnl l (by simp))]
  | l :: l2 :: ls, _, hnl => by
    have h1 : '\n' ∉ l := hnl l (by simp)
    have hrec := splitNl_joinNl (l2 :: ls) (by simp)
      (fun x hx => hnl x (List.mem_cons_of_mem l hx))
    simp only [joinNl]
    rw [splitNl_append_nl _ h1, hrec]

theorem firstSome_eq_some {α β : Type} {xs : List α} {f : α → Option β} {b : β}
    (h : firstSome xs f = some b) : ∃ x ∈ xs, f x = some b := by
  induction xs with
  | nil => simp [firstSome] at h
  | cons x xs ih =>
    cases hx : f x with
    | some b0 =>
      simp [firstSome, hx] at h
      exact ⟨x, by simp, by rw [hx, h]⟩
    | none =>
      simp [firstSome, hx] at h
      obtain ⟨y, hy, hfy⟩ := ih h
      exact ⟨y, by simp [hy], hfy⟩

/-! ### The characters of a match are characters of the input -/

theorem tryG4_subset {w g r : List Char} (h : tryG4 w = some (g, r)) :
    (∀ c ∈ g, c ∈ w) ∧ ∀ c ∈ r, c ∈ w := by
  unfold tryG4 at h
  obtain ⟨n, _, hn⟩ := firstSome_eq_some h
  split at hn
  · rename_i rest heq
    injection hn with hn
    injection hn with hg hr
    subst hg; subst hr
    constructor
    · exact fun c hc => List.take_subset n w hc
    · intro c hc
      have : c ∈ w.drop n := by rw [heq]; exact List.mem_cons_of_mem _ hc
      exact List.drop_subset n w this
  · exact absurd hn (by simp)

theorem tryOptStrict_subset {v : List Char} {g4 : Option (List Char)} {r : List Char}
    (h : tryOptStrict v = some (g4, r)) :
    (∀ o, g4 = some o → ∀ c ∈ o, c ∈ v) ∧ ∀ c ∈ r, c ∈ v := by
  unfold tryOptStrict at h
  split at h
  · rename_i v1
    obtain ⟨j, _, hj⟩ := firstSome_eq_some h
    split at hj
    · rename_i o rest heq
      injection hj with hj
      injection hj with hg hr
      subst hg; subst hr
      obtain ⟨ho, hrest⟩ := tryG4_subset heq
      constructor
      · intro o' ho' c hc
        injection ho' with ho'
        subst ho'
        exact List.mem_cons_of_mem _ (List.drop_subset j v1 (ho c hc))
      · exact fun c hc => List.mem_cons_of_mem _ (List.drop_subset j v1 (hrest c hc))
    · exact absurd hj (by simp)
  · exact absurd h (by simp)

theorem tryOptTail_subset {v : List Char} {g4 : Option (List Char)} {r : List Char}
    (h : tryOptTail v = some (g4, r)) :
    (∀ o, g4 = some o → ∀ c ∈ o, c ∈ v) ∧ ∀ c ∈ r, c ∈ v := by
  unfold tryOptTail at h
  split at h
  · rename_i p heq
    cases p with
    | mk a b =>
      injection h with h
      injection h with h1 h2
      subst h1; subst h2
      exact tryOptStrict_subset heq
  · split at h
    · rename_i rest heq
      injection h with h
      injection h with h1 h2
      subst h1; subst h2
      constructor
      · intro o ho; exact absurd ho (by simp)
      · intro c hc
        exact List.mem_cons_of_mem _ hc
    · exact absurd h (by simp)

theorem tryTail_subset {r4 g3 : List Char} {g4 : Option (List Char)} {rest : List Char}
    (h : tryTail r4 = some (g3, g4, rest)) :
    (∀ c ∈ g3, c ∈ r4) ∧ (∀ o, g4 = some o → ∀ c ∈ o, c ∈ r4) ∧ ∀ c ∈ rest, c ∈ r4 := by
  unfold tryTail at h
  obtain ⟨k, _, hk⟩ := firstSome_eq_some h
  obtain ⟨m, _, hm⟩ := firstSome_eq_some hk
  split at hm
  · rename_i o r heq
    injection hm with hm
    injection hm with h3 hm
    injection hm with h4 hr
    subst h3; subst h4; subst hr
    obtain ⟨ho, hr⟩ := tryOptTail_subset heq
    refine ⟨?_, ?_, ?_⟩
    · exact fun c hc => List.drop_subset k r4 (List.take_subset m (r4.drop k) hc)
    · exact fun o' ho' c hc =>
        List.drop_subset k r4 (List.drop_subset m (r4.drop k) (ho o' ho' c hc))
    · exact fun c hc =>
        List.drop_subset k r4 (List.drop_subset m (r4.drop k) (hr c hc))
  · exact absurd hm (by simp)

theorem evtMatch_subset {s g1 g2 g3 : List Char} {g4 : Option (List Char)} {rest : List Char}
    (h : evtMatch s = some (g1, g2, g3, g4, rest)) :
    (∀ c ∈ g1, c ∈ s) ∧ (∀ c ∈ g2, c ∈ s) ∧ (∀ c ∈ g3, c ∈ s)
    ∧ (∀ o, g4 = some o → ∀ c ∈ o, c ∈ s) ∧ ∀ c ∈ rest, c ∈ s := by
  have hdw : ∀ c ∈ s.dropWhile wordChar, c ∈ s := (List.dropWhile_sublist wordChar).subset
  simp only [evtMatch] at h
  split_ifs at h with h1 h2 h3
  split at h
  · rename_i r4 heq
    split at h
    · rename_i a b c heq2
      injection h with h
      injection h with e1 h
      injection h with e2 h
      injection h with e3 h
      injection h with e4 e5
      subst e1; subst e2; subst e3; subst e4; subst e5
      have hr2 : ∀ c ∈ (s.dropWhile wordChar).drop lit1.length, c ∈ s :=
        fun c hc => hdw c (List.drop_subset _ _ hc)
      have hr4 : ∀ c ∈ r4, c ∈ s := by
        intro c hc
        have : c ∈ ((s.dropWhile wordChar).drop lit1.length).dropWhile (fun c => !(c = ',')) := by
          rw [heq]; exact List.mem_cons_of_mem _ hc
        exact hr2 c ((List.dropWhile_sublist _).subset this)
      obtain ⟨h3s, h4s, hrs⟩ := tryTail_subset heq2
      refine ⟨?_, ?_, ?_, ?_, ?_⟩
      · exact fun c hc => (List.takeWhile_sublist wordChar).subset hc
      · exact fun c hc => hr2 c ((List.takeWhile_sublist _).subset hc)
      · exact fun c hc => hr4 c (h3s c hc)
      · exact fun o ho c hc => hr4 c (h4s o ho c hc)
      · exact fun c hc => hr4 c (hrs c hc)
    · exact absurd h (by simp)
  · exact absurd h (by simp)

/-! ### The rewriters never create newline characters inside a line -/

theorem not_mem_append {c : Char} {a b : List Char} (ha : c ∉ a) (hb : c ∉ b) :
    c ∉ a ++ b := by
  intro hm
  rcases List.mem_append.mp hm with h | h
  · exact ha h
  · exact hb h

theorem evtRepl_no_nl {g1 g2 g3 : List Char} {g4 : Option (List Char)}
    (h1 : '\n' ∉ g1) (h2 : '\n' ∉ g2) (h3 : '\n' ∉ g3)
    (h4 : ∀ o, g4 = some o → '\n' ∉ o) : '\n' ∉ evtRepl g1 g2 g3 g4 := by
  cases g4 with
  | none =>
    show '\n' ∉ _
    exact not_mem_append (not_mem_append (not_mem_append (not_mem_append (not_mem_append
      (not_mem_append (not_mem_append (not_mem_append (not_mem_append (not_mem_append
      (not_mem_append (not_mem_append (by decide) h1) (by decide)) h2) (by decide)) h3)
      (by decide)) h1) (by decide)) h2) (by decide)) h3) (by decide)
  | some o =>
    have ho : '\n' ∉ o := h4 o rfl
    show '\n' ∉ _
    exact not_mem_append (not_mem_append (not_mem_append (not_mem_append (not_mem_append
      (not_mem_append (not_mem_append (not_mem_append (not_mem_append (not_mem_append
      (not_mem_append (not_mem_append (not_mem_append (not_mem_append (not_mem_append
      (not_mem_append (by decide) h1) (by decide)) h2) (by decide)) h3) (by decide)) ho)
      (by decide)) h1) (by decide)) h2) (by decide)) h3) (by decide)) ho) (by decide)

theorem subEvtAux_no_nl : ∀ (fuel : Nat) (s : List Char), '\n' ∉ s → '\n' ∉ subEvtAux fuel s
  | 0, _, h => h
  | _ + 1, [], h => h
  | fuel + 1, c :: cs, h => by
    have hcs : '\n' ∉ cs := fun m => h (List.mem_cons_of_mem c m)
    cases hm : evtMatch (c :: cs) with
    | none =>
      simp only [subEvtAux, hm]
      intro hmem
      rcases List.mem_cons.mp hmem with h1 | h1
      · exact h (h1 ▸ List.mem_cons_self c cs)
      · exact subEvtAux_no_nl fuel cs hcs h1
    | some q =>
      obtain ⟨g1, g2, g3, g4, rest⟩ := q
      simp only [subEvtAux, hm]
      obtain ⟨s1, s2, s3, s4, s5⟩ := evtMatch_subset hm
      exact not_mem_append
        (evtRepl_no_nl (fun m => h (s1 _ m)) (fun m => h (s2 _ m)) (fun m => h (s3 _ m))
          (fun o ho m => h (s4 o ho _ m)))
        (subEvtAux_no_nl fuel rest (fun m => h (s5 _ m)))

theorem subCallAux_no_nl (lit repl : List Char) (hr : '\n' ∉ repl) :
    ∀ (fuel : Nat) (prev : Option Char) (s : List Char), '\n' ∉ s →
      '\n' ∉ subCallAux lit repl fuel prev s
  | 0, _, _, h => h
  | _ + 1, _, [], h => h
  | fuel + 1, prev, c :: cs, h => by
    have hcs : '\n' ∉ cs := fun m => h (List.mem_cons_of_mem c m)
    by_cases hif : (prevNonWord prev && lit.isPrefixOf (c :: cs)) = true
    · simp only [subCallAux, hif, if_true]
      refine not_mem_append hr (subCallAux_no_nl lit repl hr fuel _ _ ?_)
      intro m
      exact h (List.drop_subset _ _ m)
    · simp only [subCallAux, hif, if_false, Bool.false_eq_true]
      intro hmem
      rcases List.mem_cons.mp hmem with h1 | h1
      · exact h (h1 ▸ List.mem_cons_self c cs)
      · exact subCallAux_no_nl lit repl hr fuel (some c) cs hcs h1

theorem fixEvtLine_no_nl {l : List Char} (h : '\n' ∉ l) : '\n' ∉ fixEvtLine l := by
  unfold fixEvtLine
  split
  · exact h
  · exact subEvtAux_no_nl l.length l h

theorem fixTimeoutLine_no_nl {l : List Char} (h : '\n' ∉ l) : '\n' ∉ fixTimeoutLine l := by
  unfold fixTimeoutLine
  split
  · exact h
  · split
    · exact h
    · exact subCallAux_no_nl timeoutLit timeoutRepl (by decide) l.length none l h

theorem fixIntervalLine_no_nl {l : List Char} (h : '\n' ∉ l) : '\n' ∉ fixIntervalLine l := by
  unfold fixIntervalLine
  split
  · exact h
  · split
    · exact h
    · exact subCallAux_no_nl intervalLit intervalRepl (by decide) l.length none l h

/-! ### Each rewriter maps the line list through its per-line function -/

theorem splitNl_join_map (fLine : List Char → List Char)
    (hnf : ∀ l, '\n' ∉ l → '\n' ∉ fLine l) (c : List Char) :
    splitNl (joinNl ((splitNl c).map fLine)) = (splitNl c).map fLine := by
  apply splitNl_joinNl
  · intro e
    exact splitNl_ne_nil c (List.map_eq_nil_iff.mp e)
  · intro l hl
    obtain ⟨l0, hl0, rfl⟩ := List.mem_map.mp hl
    exact hnf l0 (mem_splitNl_no_nl hl0)

theorem splitNl_fix_event (c f : List Char) :
    splitNl (fix_event_listeners c f) = (splitNl c).map fixEvtLine :=
  splitNl_join_map fixEvtLine (fun _ hl => fixEvtLine_no_nl hl) c

theorem splitNl_fix_timeouts (c f : List Char) :
    splitNl (fix_timeouts c f) = (splitNl c).map fixTimeoutLine :=
  splitNl_join_map fixTimeoutLine (fun _ hl => fixTimeoutLine_no_nl hl) c

theorem splitNl_fix_intervals (c f : List Char) :
    splitNl (fix_intervals c f) = (splitNl c).map fixIntervalLine :=
  splitNl_join_map fixIntervalLine (fun _ hl => fixIntervalLine_no_nl hl) c

/-! ### Idempotence of the timer rewriters -/

theorem subCallAux_changed (lit repl g : List Char) (hg : containsSub g repl = true) :
    ∀ (fuel : Nat) (prev : Option Char) (s : List Char),
      subCallAux lit repl fuel prev s ≠ s →
      containsSub g (subCallAux lit repl fuel prev s) = true
  | 0, _, _, hne => absurd rfl hne
  | _ + 1, _, [], hne => absurd rfl hne
  | fuel + 1, prev, c :: cs, hne => by
    by_cases hif : (prevNonWord prev && lit.isPrefixOf (c :: cs)) = true
    · simp only [subCallAux, hif, if_true]
      exact containsSub_append_left _ hg
    · have heq : subCallAux lit repl (fuel + 1) prev (c :: cs)
          = c :: subCallAux lit repl fuel (some c) cs := by
        simp only [subCallAux, hif, if_false, Bool.false_eq_true]
      rw [heq] at hne ⊢
      have hne2 : subCallAux lit repl fuel (some c) cs ≠ cs := fun e => hne (by rw [e])
      exact containsSub_cons c (subCallAux_changed lit repl g hg fuel (some c) cs hne2)

theorem fixTimeoutLine_idem (l : List Char) :
    fixTimeoutLine (fixTimeoutLine l) = fixTimeoutLine l := by
  by_cases hc : isCommentLine l = true
  · have h1 : fixTimeoutLine l = l := by simp [fixTimeoutLine, hc]
    rw [h1]; exact h1
  · by_cases hg : (containsSub ("timerManager.setTimeout".toList) l
        || containsSub ("window.setTimeout".toList) l) = true
    · have h1 : fixTimeoutLine l = l := by
        unfold fixTimeoutLine
        rw [if_neg hc, if_pos hg]
      rw [h1]; exact h1
    · have h1 : fixTimeoutLine l = subCall timeoutLit timeoutRepl l := by
        unfold fixTimeoutLine
        rw [if_neg hc, if_neg hg]
      by_cases he : subCall timeoutLit timeoutRepl l = l
      · rw [h1, he, h1]; exact he
      · have hch : containsSub ("timerManager.setTimeout".toList)
            (subCall timeoutLit timeoutRepl l) = true :=
          subCallAux_changed timeoutLit timeoutRepl _ (by decide) l.length none l he
        rw [h1]
        by_cases hcr : isCommentLine (subCall timeoutLit timeoutRepl l) = true
        · unfold fixTimeoutLine
          rw [if_pos hcr]
        · unfold fixTimeoutLine
          rw [if_neg hcr, if_pos (by simp only [Bool.or_eq_true]; exact Or.inl hch)]

theorem fixIntervalLine_idem (l : List Char) :
    fixIntervalLine (fixIntervalLine l) = fixIntervalLine l := by
  by_cases hc : isCommentLine l = true
  · have h1 : fixIntervalLine l = l := by simp [fixIntervalLine, hc]
    rw [h1]; exact h1
  · by_cases hg : (containsSub ("timerManager.setInterval".toList) l
        || containsSub ("window.setInterval".toList) l) = true
    · have h1 : fixIntervalLine l = l := by
        unfold fixIntervalLine
        rw [if_neg hc, if_pos hg]
      rw [h1]; exact h1
    · have h1 : fixIntervalLine l = subCall intervalLit intervalRepl l := by
        unfold fixIntervalLine
        rw [if_neg hc, if_neg hg]
      by_cases he : subCall intervalLit intervalRepl l = l
      · rw [h1, he, h1]; exact he
      · have hch : containsSub ("timerManager.setInterval".toList)
            (subCall intervalLit intervalRepl l) = true :=
          subCallAux_changed intervalLit intervalRepl _ (by decide) l.length none l he
        rw [h1]
        by_cases hcr : isCommentLine (subCall intervalLit intervalRepl l) = true
        · unfold fixIntervalLine
          rw [if_pos hcr]
        · unfold fixIntervalLine
          rw [if_neg hcr, if_pos (by simp only [Bool.or_eq_true]; exact Or.inl hch)]

theorem fix_timeouts_idem (c f g : List Char) :
    fix_timeouts (fix_timeouts c f) g = fix_timeouts c f := by
  show joinNl ((splitNl (fix_timeouts c f)).map fixTimeoutLine) = fix_timeouts c f
  rw [splitNl_fix_timeouts, List.map_map]
  have hmap : (splitNl c).map (fixTimeoutLine ∘ fixTimeoutLine) = (splitNl c).map fixTimeoutLine :=
    List.map_congr_left (fun l _ => fixTimeoutLine_idem l)
  rw [hmap]
  rfl

theorem fix_intervals_idem (c f g : List Char) :
    fix_intervals (fix_intervals c f) g = fix_intervals c f := by
  show joinNl ((splitNl (fix_intervals c f)).map fixIntervalLine) = fix_intervals c f
  rw [splitNl_fix_intervals, List.map_map]
  have hmap : (splitNl c).map (fixIntervalLine ∘ fixIntervalLine) = (splitNl c).map fixIntervalLine :=
    List.map_congr_left (fun l _ => fixIntervalLine_idem l)
  rw [hmap]
  rfl

/-! ### Comment lines pass through unchanged -/

theorem fixEvtLine_comment {l : List Char} (h : isCommentLine l = true) : fixEvtLine l = l := by
  simp [fixEvtLine, h]

theorem fixTimeoutLine_comment {l : List Char} (h : isCommentLine l = true) :
    fixTimeoutLine l = l := by
  simp [fixTimeoutLine, h]

theorem fixIntervalLine_comment {l : List Char} (h : isCommentLine l = true) :
    fixIntervalLine l = l := by
  simp [fixIntervalLine, h]

theorem getD_map_id_of_comment (fLine : List Char → List Char)
    (hcomm : ∀ l, isCommentLine l = true → fLine l = l) :
    ∀ (ls : List (List Char)) (i : Nat), isCommentLine (ls.getD i []) = true →
      (ls.map fLine).getD i [] = ls.getD i []
  | [], _, _ => by simp
  | l :: _, 0, h => by
    simp only [List.getD_cons_zero, List.map_cons] at h ⊢
    exact hcomm l h
  | _ :: ls, i + 1, h => by
    simp only [List.getD_cons_succ, List.map_cons] at h ⊢
    exact getD_map_id_of_comment fLine hcomm ls i h

/-! ### Lemmas about `process_file` and the driver counts -/

theorem process_file_excluded {f : List Char} (d : List Char) (h : f ∈ EXCLUDE_FILES) :
    process_file f d = (false, d, []) := by
  simp [process_file, h]

theorem mainCounts_fst : ∀ files, (mainCounts files).1 = files.length
  | [] => rfl
  | fd :: rest => by simp [mainCounts, mainCounts_fst rest]

theorem mainCounts_snd : ∀ files, (mainCounts files).2
    = (files.filter (fun fd => (process_file fd.1 fd.2).1)).length
  | [] => rfl
  | fd :: rest => by
    by_cases h : (process_file fd.1 fd.2).1 = true <;>
      simp [mainCounts, h, List.filter_cons, mainCounts_snd rest]

theorem mainCounts_le : ∀ files, (mainCounts files).2 ≤ (mainCounts files).1
  | [] => Nat.le_refl 0
  | fd :: rest => by
    have := mainCounts_le rest
    by_cases h : (process_file fd.1 fd.2).1 = true <;> simp [mainCounts, h] <;> omega

theorem mainCounts_skipped : ∀ files, (mainCounts files).1 - (mainCounts files).2
    = (files.filter (fun fd => !(process_file fd.1 fd.2).1)).length
  | [] => rfl
  | fd :: rest => by
    have hle := mainCounts_le rest
    have ih := mainCounts_skipped rest
    by_cases h : (process_file fd.1 fd.2).1 = true <;>
      simp [mainCounts, h, List.filter_cons] <;> omega

theorem filter_excluded_fixed_nil :
    ∀ files : List (List Char × List Char),
      files.filter (fun fd => decide (fd.1 ∈ EXCLUDE_FILES) && (process_file fd.1 fd.2).1) = []
  | [] => rfl
  | fd :: rest => by
    have ih := filter_excluded_fixed_nil rest
    by_cases h : fd.1 ∈ EXCLUDE_FILES
    · have hp : (process_file fd.1 fd.2).1 = false := by
        simp [process_file_excluded fd.2 h]
      simp [List.filter_cons, hp, ih]
    · simp [List.filter_cons, h, ih]

/-! ### The claims -/

set_option maxRecDepth 8000

/-- C1: For every input string and every line of it whose trimmed text starts
with `//` or `*`, each of the three rewriter passes (fix_event_listeners,
fix_timeouts, fix_intervals) returns that line byte-identical to the input
line. -/
theorem comment_lines_unchanged (c f : List Char) (i : Nat)
    (h : isCommentLine ((splitNl c).getD i []) = true) :
    (splitNl (fix_event_listeners c f)).getD i [] = (splitNl c).getD i []
    ∧ (splitNl (fix_timeouts c f)).getD i [] = (splitNl c).getD i []
    ∧ (splitNl (fix_intervals c f)).getD i [] = (splitNl c).getD i [] := by
  refine ⟨?_, ?_, ?_⟩
  · rw [splitNl_fix_event]
    exact getD_map_id_of_comment fixEvtLine (fun _ hl => fixEvtLine_comment hl) (splitNl c) i h
  · rw [splitNl_fix_timeouts]
    exact getD_map_id_of_comment fixTimeoutLine (fun _ hl => fixTimeoutLine_comment hl)
      (splitNl c) i h
  · rw [splitNl_fix_intervals]
    exact getD_map_id_of_comment fixIntervalLine (fun _ hl => fixIntervalLine_comment hl)
      (splitNl c) i h

/-- Witness for C1 at the comment line `// a.addEventListener(b, c); setTimeout(d);`. -/
theorem comment_lines_unchanged_witness :
    (isCommentLine ((splitNl ("// a.addEventListener(b, c); setTimeout(d);".toList)).getD 0 [])
      = true)
    ∧ ((splitNl (fix_event_listeners ("// a.addEventListener(b, c); setTimeout(d);".toList)
          ("game.js".toList))).getD 0 []
        = (splitNl ("// a.addEventListener(b, c); setTimeout(d);".toList)).getD 0 []
      ∧ (splitNl (fix_timeouts ("// a.addEventListener(b, c); setTimeout(d);".toList)
          ("game.js".toList))).getD 0 []
        = (splitNl ("// a.addEventListener(b, c); setTimeout(d);".toList)).getD 0 []
      ∧ (splitNl (fix_intervals ("// a.addEventListener(b, c); setTimeout(d);".toList)
          ("game.js".toList))).getD 0 []
        = (splitNl ("// a.addEventListener(b, c); setTimeout(d);".toList)).getD 0 []) :=
  ⟨by decide, comment_lines_unchanged _ _ 0 (by decide)⟩

/-- C2: The two timer rewriters are idempotent: applying `fix_timeouts` or
`fix_intervals` a second time to its own output changes nothing, because a
line already containing the manager-qualified (or window-qualified) call name
is passed through unchanged. -/
theorem timer_rewriters_idempotent (c f : List Char) :
    fix_timeouts (fix_timeouts c f) f = fix_timeouts c f
    ∧ fix_intervals (fix_intervals c f) f = fix_intervals c f :=
  ⟨fix_timeouts_idem c f f, fix_intervals_idem c f f⟩

/-- C3: For every file whose basename is in the exclusion set, `process_file`
returns False without performing any filesystem read or write, so the file's
content (and hence its modification time) is unchanged. -/
theorem excluded_file_untouched (f d : List Char) (h : f ∈ EXCLUDE_FILES) :
    process_file f d = (false, d, []) :=
  process_file_excluded d h

/-- Witness for C3 at the excluded file `TimerManager.js`. -/
theorem excluded_file_untouched_witness :
    ("TimerManager.js".toList ∈ EXCLUDE_FILES)
    ∧ process_file ("TimerManager.js".toList) ("setTimeout(1);".toList)
        = (false, "setTimeout(1);".toList, []) :=
  ⟨by decide, excluded_file_untouched _ _ (by decide)⟩

/-- C4: On the single non-comment line `btn.addEventListener('click', onClick);`
the listener rewriter produces the manager-or-fallback conditional with
`btn`, `'click'`, `onClick` forwarded in that order and no trailing options
argument. -/
theorem evt_example_line :
    fix_event_listeners ("btn.addEventListener('click', onClick);".toList) ("game.js".toList)
    = ("(window.eventListenerManager ? window.eventListenerManager.add(btn, 'click', onClick) : btn.addEventListener('click', onClick));").toList := by
  decide

/-- C5: On the single non-comment line `setTimeout(doWork, 500);` the timeout
rewriter replaces only the call head, leaving the argument text
`(doWork, 500);` untouched. -/
theorem timeout_example_line :
    fix_timeouts ("setTimeout(doWork, 500);".toList) ("game.js".toList)
    = ("(window.timerManager ? window.timerManager.setTimeout : setTimeout)(doWork, 500);").toList := by
  decide

/-- C6: For a non-excluded file, `process_file` writes iff the three rewriters
change the content: on a change it overwrites the path with the full new
content and returns True, otherwise it performs no write and returns False. -/
theorem process_file_write_iff (f d : List Char) (h : f ∉ EXCLUDE_FILES) :
    ((process_file f d).1 = true ↔ applyFixes d f ≠ d)
    ∧ (process_file f d).2.1 = applyFixes d f
    ∧ ((process_file f d).2.2 = [FileEvent.read, FileEvent.write (applyFixes d f)]
        ↔ applyFixes d f ≠ d)
    ∧ ((process_file f d).2.2 = [FileEvent.read] ↔ applyFixes d f = d) := by
  by_cases hd : applyFixes d f = d
  · simp [process_file, h, hd]
  · simp [process_file, h, hd]

/-- Witness for C6: a file of one comment line mentioning addEventListener is
reported unchanged and not written. -/
theorem process_file_write_iff_witness :
    ("game.js".toList ∉ EXCLUDE_FILES)
    ∧ (((process_file ("game.js".toList) ("// uses addEventListener('click', h);".toList)).1
          = true
        ↔ applyFixes ("// uses addEventListener('click', h);".toList) ("game.js".toList)
          ≠ ("// uses addEventListener('click', h);".toList))
      ∧ (process_file ("game.js".toList) ("// uses addEventListener('click', h);".toList)).2.1
        = applyFixes ("// uses addEventListener('click', h);".toList) ("game.js".toList)
      ∧ ((process_file ("game.js".toList) ("// uses addEventListener('click', h);".toList)).2.2
          = [FileEvent.read, FileEvent.write
              (applyFixes ("// uses addEventListener('click', h);".toList) ("game.js".toList))]
        ↔ applyFixes ("// uses addEventListener('click', h);".toList) ("game.js".toList)
          ≠ ("// uses addEventListener('click', h);".toList))
      ∧ ((process_file ("game.js".toList) ("// uses addEventListener('click', h);".toList)).2.2
          = [FileEvent.read]
        ↔ applyFixes ("// uses addEventListener('click', h);".toList) ("game.js".toList)
          = ("// uses addEventListener('click', h);".toList))) :=
  ⟨by decide, process_file_write_iff _ _ (by decide)⟩

/-- The one-file enumeration used to settle C7: a run over just the excluded
file `TimerManager.js`. -/
def exampleFiles : List (List Char × List Char) :=
  [("TimerManager.js".toList, "setTimeout(1);".toList)]

/-- C7 counterexample: on a run whose only file is the excluded
`TimerManager.js`, the driver's total is 1 although zero files are outside
the exclusion set, and the printed skipped count is 1 although zero
processed files were left unmodified — so excluded files ARE counted in
"total" and in "skipped", contrary to the claim. -/
theorem main_summary_claim_counterexample :
    ¬ ((mainCounts exampleFiles).1
        = (exampleFiles.filter (fun fd => !(decide (fd.1 ∈ EXCLUDE_FILES)))).length
      ∧ (mainCounts exampleFiles).1 - (mainCounts exampleFiles).2
        = (exampleFiles.filter
            (fun fd => !(decide (fd.1 ∈ EXCLUDE_FILES)) && !(process_file fd.1 fd.2).1)).length) := by
  decide

/-- C7 (amended): the summary satisfies skipped = total − modified, but
"total" counts every enumerated file including exclusion-list files, and
since excluded files always report False they are counted among the skipped
files (skipped = number of files not modified, excluded ones included). -/
theorem main_summary_counts (files : List (List Char × List Char)) :
    (mainCounts files).1 = files.length
    ∧ (mainCounts files).2 = (files.filter (fun fd => (process_file fd.1 fd.2).1)).length
    ∧ (mainCounts files).1 - (mainCounts files).2
        = (files.filter (fun fd => !(process_file fd.1 fd.2).1)).length
    ∧ files.filter (fun fd => decide (fd.1 ∈ EXCLUDE_FILES) && (process_file fd.1 fd.2).1) = [] :=
  ⟨mainCounts_fst files, mainCounts_snd files, mainCounts_skipped files,
    filter_excluded_fixed_nil files⟩

/-- C8: Running the per-file transform twice produces no further change for
the two timer rewriters, but the listener rewriter has no already-wrapped
guard: there is a content string on which a second application of
`fix_event_listeners` changes the output of the first. -/
theorem second_run_asymmetry :
    (∀ c f : List Char, fix_timeouts (fix_timeouts c f) f = fix_timeouts c f
      ∧ fix_intervals (fix_intervals c f) f = fix_intervals c f)
    ∧ ∃ c f : List Char,
        fix_event_listeners (fix_event_listeners c f) f ≠ fix_event_listeners c f :=
  ⟨fun c f => ⟨fix_timeouts_idem c f f, fix_intervals_idem c f f⟩,
    ⟨"btn.addEventListener('click', onClick);".toList, "game.js".toList, by decide⟩⟩

/-- C9: Every rewriter pass preserves the line structure of its input: the
output splits into exactly as many lines as the input, and each output line
is the image of the corresponding input line under the pass's per-line
function. -/
theorem rewriters_linewise (c f : List Char) :
    splitNl (fix_event_listeners c f) = (splitNl c).map fixEvtLine
    ∧ splitNl (fix_timeouts c f) = (splitNl c).map fixTimeoutLine
    ∧ splitNl (fix_intervals c f) = (splitNl c).map fixIntervalLine
    ∧ (splitNl (fix_event_listeners c f)).length = (splitNl c).length
    ∧ (splitNl (fix_timeouts c f)).length = (splitNl c).length
    ∧ (splitNl (fix_intervals c f)).length = (splitNl c).length := by
  refine ⟨splitNl_fix_event c f, splitNl_fix_timeouts c f, splitNl_fix_intervals c f, ?_, ?_, ?_⟩
  · rw [splitNl_fix_event]; exact List.length_map (splitNl c) fixEvtLine
  · rw [splitNl_fix_timeouts]; exact List.length_map (splitNl c) fixTimeoutLine
  · rw [splitNl_fix_intervals]; exact List.length_map (splitNl c) fixIntervalLine

/-- C10: The output of each rewriter does not depend on its filename
argument: the parameter is never used in the transformation. -/
theorem filename_independent (c f1 f2 : List Char) :
    fix_event_listeners c f1 = fix_event_listeners c f2
    ∧ fix_timeouts c f1 = fix_timeouts c f2
    ∧ fix_intervals c f1 = fix_intervals c f2 :=
  ⟨rfl, rfl, rfl⟩

end FixMemoryLeaks
